import Mathlib

/-!
Verification of the quiz-solver repository: a shallow embedding of the
answer-padding normalizer (`solver.format_answer_with_padding`), the stage
attempt loop (`solver.solve_quiz_sequence_core`), the LLM retry loop and
response sanitation (`llm_service.get_structured_answer`), the rate limiter
(`rate_limiter.GeminiRateLimiter`) and the inbound endpoint
(`main.handle_quiz_request`), together with theorems settling the spec's
claims about them.

Strings are modelled as `List Char` internally (Python `str`), wrapped into
`String` at the interfaces.  Regular expressions over the restricted
alphabets used by the code are compiled by hand into deterministic scanners;
`\d`, `\s` and `re.IGNORECASE` are modelled over ASCII, which covers every
alphabet the code's patterns can produce (`[A-Z-]` prefixes, digits,
placeholder characters).  Wall-clock time is modelled as `ℤ` seconds and
Python integers as `ℤ`.
-/

/-- ASCII `\d` (Python regex digit, restricted to ASCII). -/
def isDigitC (c : Char) : Bool := decide ('0' ≤ c ∧ c ≤ '9')

/-- Character class `[A-Z-]` from the pattern `^([A-Z-]+)-(\d+)$`. -/
def isUpperOrHyphen (c : Char) : Bool := decide ('A' ≤ c ∧ c ≤ 'Z') || decide (c = '-')

/-- Python `str.zfill`: left-pad with `'0'` to `width`; a no-op when the
string is already at least `width` long (the inputs here are pure digit
strings, so the sign handling of `zfill` never triggers). -/
def zfill (width : Nat) (ds : List Char) : List Char :=
  List.replicate (width - ds.length) '0' ++ ds

/-- Drop a single trailing newline: Python's `$` in `re.match` also matches
just before a final newline, so `re.match(r'^([A-Z-]+)-(\d+)$', s)` accepts
`s` with one trailing `'\n'`. -/
def stripFinalNl (l : List Char) : List Char :=
  if l.getLast? = some '\n' then l.dropLast else l

/-- Model of `re.match(r'^([A-Z-]+)-(\d+)$', answer)` from
`solver.format_answer_with_padding` (line 50).  The decomposition
`prefixPart ++ '-' ++ digits` is unique when it exists (digits cannot
contain `'-'`), so the groups are computed from the maximal digit suffix. -/
def matchCore (l : List Char) : Option (List Char × List Char) :=
  if (l.reverse.takeWhile isDigitC).isEmpty then none
  else
    match l.reverse.dropWhile isDigitC with
    | '-' :: preRev =>
      if preRev.reverse.isEmpty then none
      else if preRev.reverse.all isUpperOrHyphen then
        some (preRev.reverse, (l.reverse.takeWhile isDigitC).reverse)
      else none
    | _ => none

/-- Full `re.match(r'^([A-Z-]+)-(\d+)$', answer)` including the
final-newline allowance of `$`. -/
def matchPrefixNum (l0 : List Char) : Option (List Char × List Char) :=
  matchCore (stripFinalNl l0)

/-- Case-sensitive literal matcher: consume `lit` from the head, returning
the remainder. -/
def matchLit : List Char → List Char → Option (List Char)
  | [], l => some l
  | _ :: _, [] => none
  | a :: as, c :: cs => if a = c then matchLit as cs else none

/-- Single step of `re.findall(rf'{prefix}-(\d+)', page)`: at the current position,
match the literal `pre ++ "-"` followed by a maximal nonempty digit run
(group 1); return the group and the remainder after the match. -/
def matchLitDigits (pre : List Char) (l : List Char) : Option (List Char × List Char) := do
  let r ← matchLit (pre ++ ['-']) l
  let ds := r.takeWhile isDigitC
  if ds.isEmpty then none else some (ds, r.drop ds.length)

/-- Generic `re.findall` driver: scan left to right, at each position try the
position matcher; on a match record the group and resume after it, otherwise
advance one character.  `fuel` bounds the recursion (callers pass the input
length; every step consumes at least one character). -/
def findallWith (m : List Char → Option (List Char × List Char)) : Nat → List Char → List (List Char)
  | 0, _ => []
  | _ + 1, [] => []
  | fuel + 1, c :: rest =>
    match m (c :: rest) with
    | some (g, rem) => g :: findallWith m fuel rem
    | none => findallWith m fuel rest

/-- ASCII lower-casing, modelling `str.lower` / `re.IGNORECASE` folding on
the `[A-Z-]` alphabet the prefixes are drawn from. -/
def lowerC (c : Char) : Char :=
  if decide ('A' ≤ c ∧ c ≤ 'Z') then Char.ofNat (c.toNat + 32) else c

/-- Case-insensitive character comparison (ASCII `re.IGNORECASE`). -/
def ciEq (a b : Char) : Bool := lowerC a = lowerC b

/-- Case-insensitive literal matcher. -/
def matchCiLit : List Char → List Char → Option (List Char)
  | [], l => some l
  | _ :: _, [] => none
  | a :: as, c :: cs => if ciEq a c then matchCiLit as cs else none

/-- The placeholder class `[\?X]+` (and `[\?x]+`) under `re.IGNORECASE`:
question marks and either case of X. -/
def isQX (c : Char) : Bool := c = '?' || c = 'X' || c = 'x'

/-- Maximal nonempty run of a character class (a greedy `+` whose follower
can never be in the class, so no backtracking is possible). -/
def matchClassRun (cls : Char → Bool) (l : List Char) : Option (List Char × List Char) :=
  let run := l.takeWhile cls
  if run.isEmpty then none else some (run, l.drop run.length)

/-- Placeholder pattern 1, `rf'{prefix}-([\?X]+)'` with `re.IGNORECASE`
(solver line 75); also pattern 2, `rf'{prefix.lower()}-([\?x]+)'` (line 76),
which is the same matcher applied to the lower-cased literal. -/
def matchPlaceholder1 (pre : List Char) (l : List Char) : Option (List Char × List Char) := do
  let r1 ← matchCiLit (pre ++ ['-']) l
  matchClassRun isQX r1

/-- Placeholder pattern 3, `rf'\({prefix}-([\?X]+)\)'` (solver line 77): the
run is greedy and `')'` is not in the class, so greedy-then-check is exact. -/
def matchPlaceholder3 (pre : List Char) (l : List Char) : Option (List Char × List Char) :=
  match l with
  | '(' :: r0 =>
    (do
      let r1 ← matchCiLit (pre ++ ['-']) r0
      let (run, r2) ← matchClassRun isQX r1
      match r2 with
      | ')' :: r3 => some (run, r3)
      | _ => none)
  | _ => none

/-- Python `\s` over ASCII (space, tab, newline, carriage return, vertical
tab, form feed). -/
def isPySpace (c : Char) : Bool :=
  c = ' ' || c = '\t' || c = '\n' || c = '\r' || c = Char.ofNat 11 || c = Char.ofNat 12

/-- Placeholder pattern 4, `rf'e\.g\.,?\s*{prefix}-([\?X]+)'` with
`re.IGNORECASE` (solver line 78).  The optional comma and the greedy `\s*`
are deterministic here because the prefix starts with a non-space,
non-comma character. -/
def matchPlaceholder4 (pre : List Char) (l : List Char) : Option (List Char × List Char) := do
  let r1 ← matchCiLit ['e', '.', 'g', '.'] l
  let r2 := match r1 with
    | ',' :: t => t
    | _ => r1
  let r3 := r2.dropWhile isPySpace
  let r4 ← matchCiLit (pre ++ ['-']) r3
  matchClassRun isQX r4

/-- The class `[:\s]` from the format-hint pattern. -/
def isColonSpace (c : Char) : Bool := c = ':' || isPySpace c

/-- First alternative of the format-hint pattern
`rf'format[:\s]+{prefix}-([X\?]+)|e\.g\.,?\s*{prefix}-([X\?]+)'`
(solver line 97). -/
def matchHintFormat (pre : List Char) (l : List Char) : Option (List Char × List Char) := do
  let r1 ← matchCiLit ['f', 'o', 'r', 'm', 'a', 't'] l
  let (_, r2) ← matchClassRun isColonSpace r1
  let r3 ← matchCiLit (pre ++ ['-']) r2
  matchClassRun isQX r3

/-- The full format-hint alternation: try the `format...` branch first, then
the `e.g....` branch, as the regex engine does at each position.  Each match
yields exactly one nonempty group, which is what the source's
`for hint in hint_tuple: if hint:` loop extracts. -/
def matchHint (pre : List Char) (l : List Char) : Option (List Char × List Char) :=
  match matchHintFormat pre l with
  | some r => some r
  | none => matchPlaceholder4 pre l

/-- Strategy 1 example scan: `re.findall(rf'{prefix}-(\d+)', page_content)`
(solver lines 57-58). -/
def findExamples (pre page : List Char) : List (List Char) :=
  findallWith (matchLitDigits pre) page.length page

/-- Strategy 2 placeholder scan: the four `placeholder_patterns` in source
order, each run over the whole page (solver lines 74-82); the nested
pattern/match loops visit exactly this concatenation in order. -/
def findPlaceholders (pre page : List Char) : List (List Char) :=
  findallWith (matchPlaceholder1 pre) page.length page
    ++ findallWith (matchPlaceholder1 (pre.map lowerC)) page.length page
    ++ findallWith (matchPlaceholder3 pre) page.length page
    ++ findallWith (matchPlaceholder4 pre) page.length page

/-- Strategy 3 hint scan: `re.findall(format_hint_pattern, page)` flattened
to the nonempty group of each match (solver lines 97-101). -/
def findHints (pre page : List Char) : List (List Char) :=
  findallWith (matchHint pre) page.length page

/-- Strategy 1 selection (solver lines 60-70): the first example whose
digits start with `'0'` and have length above one. -/
def firstLeadingZero : List (List Char) → Option (List Char)
  | [] => none
  | ex :: rest =>
    if ex.head? = some '0' ∧ 1 < ex.length then some ex else firstLeadingZero rest

/-- Strategies 2/3 selection (solver lines 83-93 and 100-111): the first
placeholder/hint at least as long as the answer's digit part. -/
def firstAtLeast (n : Nat) : List (List Char) → Option (List Char)
  | [] => none
  | p :: rest => if n ≤ p.length then some p else firstAtLeast n rest

/-- The three padding strategies of `format_answer_with_padding` applied to
an already-decomposed `PREFIX`/`NUMBER` answer; `none` means every strategy
fell through and the original answer is returned unchanged (solver line
113). -/
def formatCore (pre num page : List Char) : Option (List Char) :=
  match firstLeadingZero (findExamples pre page) with
  | some ex => some (pre ++ '-' :: zfill ex.length num)
  | none =>
    match firstAtLeast num.length (findPlaceholders pre page) with
    | some p => some (pre ++ '-' :: zfill p.length num)
    | none =>
      match firstAtLeast num.length (findHints pre page) with
      | some h => some (pre ++ '-' :: zfill h.length num)
      | none => none

/-- Body of `solver.format_answer_with_padding` on character lists. -/
def formatAnswerL (answer page : List Char) : List Char :=
  match matchPrefixNum answer with
  | none => answer
  | some (pre, num) =>
    match formatCore pre num page with
    | some out => out
    | none => answer

/-- The function `solver.format_answer_with_padding(answer, page_content)`
(solver lines 32-113). -/
def format_answer_with_padding (answer page_content : String) : String :=
  List.asString (formatAnswerL answer.toList page_content.toList)

/-- Predicate form of the shape accepted by `re.match(r'^([A-Z-]+)-(\d+)$', s)`
(with Python's `$` also matching before one final newline): an uppercase or
hyphen prefix, a hyphen, then digits. -/
def RegexShape (s : String) : Prop :=
  ∃ pre num : List Char,
    stripFinalNl s.toList = pre ++ '-' :: num ∧
    pre ≠ [] ∧ pre.all isUpperOrHyphen = true ∧
    num ≠ [] ∧ num.all isDigitC = true

/-- Python exception classes distinguished by the sanitation code's
`except` clauses: `json.JSONDecodeError` (the only exception `json.loads`
raises on a `str` input) versus anything else. -/
inductive PyExc where
  | jsonDecodeError
  | otherExc
deriving DecidableEq

/-- Python `str.strip()` over ASCII whitespace. -/
def pyStrip (l : List Char) : List Char :=
  ((l.dropWhile isPySpace).reverse.dropWhile isPySpace).reverse

/-- The double-quote character. -/
def quoteChar : Char := Char.ofNat 34

/-- The single-quote character. -/
def apostChar : Char := Char.ofNat 39

/-- Python `s.startswith(c) and s.endswith(c)` (both hold for the length-one
string `c`). -/
def startsEndsWith (a b : Char) (l : List Char) : Bool :=
  (l.head? = some a) && (l.getLast? = some b)

/-- One quote-stripping step of the sanitation's Strategy 2: Python
`s[1:-1]` under the startswith/endswith guard. -/
def stripPair (c : Char) (l : List Char) : List Char :=
  if startsEndsWith c c l then (l.drop 1).dropLast else l

/-- Model of `re.search(r'\{[^}]+\}', s)`: the leftmost occurrence of an
opening brace followed by one or more non-closing-brace characters and a
closing brace.  The greedy run is exact because a shorter run would be
followed by a class character, never the required closing brace. -/
def searchBrace : List Char → Option (List Char)
  | [] => none
  | c :: rest =>
    if c = '{' then
      let run := rest.takeWhile (fun d => d ≠ '}')
      if !run.isEmpty && run.length < rest.length then some ('{' :: (run ++ ['}']))
      else searchBrace rest
    else searchBrace rest

/-- Key list of sanitation Strategy 1 (llm_service line 503). -/
def keysStrategy1 : List (List Char) :=
  ["answer".toList, "final_answer".toList, "value".toList, "result".toList, "secret".toList]

/-- Key list of sanitation Strategy 3 (llm_service line 525). -/
def keysStrategy3 : List (List Char) :=
  ["answer".toList, "final_answer".toList, "value".toList, "result".toList]

/-- The `for key in [...]: if key in parsed_json:` loop: the first listed
key present in the object, with its (already stringified) value. -/
def firstKeyHit (kvs : List (List Char × List Char)) : List (List Char) → Option (List Char)
  | [] => none
  | k :: ks =>
    match kvs.lookup k with
    | some v => some v
    | none => firstKeyHit kvs ks

/-- Response sanitation of `llm_service.get_structured_answer` (lines
494-533), the cleanup applied to `result.final_answer`.  `loads` models
`json.loads` composed with Python `str()` on each top-level value: on a
string that starts with `'{'` and ends with `'}'` a successful parse is
necessarily a JSON object, and on failure `json.loads` raises
`json.JSONDecodeError`.  Strategy 1's `except` clause catches only
`JSONDecodeError`; Strategy 3's bare `except` catches everything.  The
result is `Except` so that an uncaught exception would be visible as
`.error`. -/
def sanitizeAnswer (loads : List Char → Except PyExc (List (List Char × List Char)))
    (finalAnswer : List Char) : Except PyExc (List Char) :=
  let s0 := pyStrip finalAnswer
  let step1 : Except PyExc (List Char) :=
    if s0.head? = some '{' ∧ s0.getLast? = some '}' then
      match loads s0 with
      | .error .jsonDecodeError => .ok s0
      | .error e => .error e
      | .ok kvs =>
        match firstKeyHit kvs keysStrategy1 with
        | some v => .ok (pyStrip v)
        | none => .ok s0
    else .ok s0
  match step1 with
  | .error e => .error e
  | .ok s1 =>
    let s2 := stripPair apostChar (stripPair quoteChar s1)
    let s3 :=
      if s2.contains '{' ∧ s2.contains '}' then
        match searchBrace s2 with
        | some m =>
          match loads m with
          | .error _ => s2
          | .ok kvs =>
            match firstKeyHit kvs keysStrategy3 with
            | some v => v
            | none => s2
        | none => s2
      else s2
    .ok s3

/-- Outcome of one `LLM_CLIENT.models.generate_content` call as the retry
loop of `get_structured_answer` (lines 443-483) distinguishes them: success;
a `ServerError` whose text carries `'503'`/`'overloaded'`; any other
`ServerError`; and any other exception (this last class includes provider
client errors such as 4xx, which are not `ServerError`). -/
inductive LLMCallResult where
  | ok
  | overloaded
  | serverErr
  | otherErr
deriving DecidableEq

/-- Result of the whole retry loop: a successful response at some attempt
index, the `ValueError` raised after the overload retries are spent, or an
exception re-raised at some attempt. -/
inductive RetryOutcome where
  | success (attempt : Nat)
  | unavailable
  | raised (attempt : Nat) (e : LLMCallResult)
deriving DecidableEq

/-- The literal `retry_delays = [2, 4, 8, 16, 30]` (llm_service line 433). -/
def retryDelays : List Nat := [2, 4, 8, 16, 30]

/-- The literal `max_retries = 5` (llm_service line 432). -/
def maxRetries : Nat := 5

/-- The retry loop `for attempt in range(max_retries)` of
`get_structured_answer` from a given attempt index, driven by the outcome
of each call.  Returns (number of calls made, delays slept between calls,
loop result).  `fuel` only bounds the recursion; the branch conditions are
the source's own `attempt < max_retries - 1` / `attempt == max_retries - 1`
tests. -/
def retryFrom (outcomes : Nat → LLMCallResult) : Nat → Nat → Nat × List Nat × RetryOutcome
  | _, 0 => (0, [], .unavailable)
  | attempt, fuel + 1 =>
    match outcomes attempt with
    | .ok => (1, [], .success attempt)
    | .overloaded =>
      if attempt < maxRetries - 1 then
        let r := retryFrom outcomes (attempt + 1) fuel
        (r.1 + 1, retryDelays.getD attempt 0 :: r.2.1, r.2.2)
      else (1, [], .unavailable)
    | .serverErr => (1, [], .raised attempt .serverErr)
    | .otherErr =>
      if attempt = maxRetries - 1 then (1, [], .raised attempt .otherErr)
      else
        let r := retryFrom outcomes (attempt + 1) fuel
        (r.1 + 1, retryDelays.getD attempt 0 :: r.2.1, r.2.2)

/-- The full retry loop of a single `get_structured_answer` call. -/
def runRetryLoop (outcomes : Nat → LLMCallResult) : Nat × List Nat × RetryOutcome :=
  retryFrom outcomes 0 maxRetries

/-- State of `rate_limiter.GeminiRateLimiter`: the two sliding-window
deques of `(timestamp, tokens)` pairs and the three limits.  Wall-clock
instants are modelled as `ℤ` seconds, token counts and limits as `ℤ`. -/
structure RLState where
  requestsMinute : List (ℤ × ℤ)
  requestsDay : List (ℤ × ℤ)
  rpmLimit : ℤ
  tpmLimit : ℤ
  rpdLimit : ℤ

/-- Minute-window pruning of `_clean_old_requests` (lines 49-50): popleft
while `now - ts > 60`. -/
def cleanMinute (now : ℤ) (l : List (ℤ × ℤ)) : List (ℤ × ℤ) :=
  l.dropWhile (fun e => decide (60 < now - e.1))

/-- Calendar day of a timestamp, modelling `datetime.fromtimestamp(ts).date()`
with UTC days of 86400 seconds (floor division). -/
def dayOf (t : ℤ) : ℤ := Int.fdiv t 86400

/-- Day-window pruning of `_clean_old_requests` (lines 53-58): popleft while
the entry's date precedes the current date. -/
def cleanDay (now : ℤ) (l : List (ℤ × ℤ)) : List (ℤ × ℤ) :=
  l.dropWhile (fun e => decide (dayOf e.1 < dayOf now))

/-- Python `max(wait_times) if wait_times else 0` (line 132). -/
def pyMax : List ℤ → ℤ
  | [] => 0
  | x :: xs => xs.foldl max x

/-- Model of `GeminiRateLimiter._calculate_wait_time(estimated_tokens)`
(lines 86-132) at wall-clock instant `now`.  `none` models the `IndexError`
the source would raise on `self.requests_minute[0]` with an empty pruned
window (reachable only when `rpm_limit <= 1`); the day-rollover return
models `seconds_until_midnight`. -/
def calcWaitTime (st : RLState) (now : ℤ) (estimatedTokens : ℤ) : Option ℤ :=
  let minute := cleanMinute now st.requestsMinute
  let day := cleanDay now st.requestsDay
  let rpmCurrent : ℤ := minute.length
  let tpmCurrent : ℤ := (minute.map (fun e => e.2)).sum
  let rpdCurrent : ℤ := day.length
  let rpmWait : Option (List ℤ) :=
    if st.rpmLimit - 1 ≤ rpmCurrent then
      match minute.head? with
      | some e => some [max 0 (60 - (now - e.1))]
      | none => none
    else some []
  match rpmWait with
  | none => none
  | some wt1 =>
    let wt2 :=
      if st.tpmLimit - 50000 ≤ tpmCurrent + estimatedTokens then
        match minute.head? with
        | some e => wt1 ++ [max 0 (60 - (now - e.1))]
        | none => wt1
      else wt1
    if st.rpdLimit ≤ rpdCurrent then some (86400 * (dayOf now + 1) - now)
    else some (pyMax wt2)

/-- Model of `GeminiRateLimiter.wait_if_needed(estimated_tokens)` (lines
134-145), returning the duration slept before admitting the caller (`0`
means admitted immediately). -/
def wait_if_needed (st : RLState) (now : ℤ) (estimatedTokens : ℤ) : Option ℤ :=
  (calcWaitTime st now estimatedTokens).map (fun w => if 0 < w then w else 0)

/-- Outcome of the `asyncio.wait_for(get_structured_answer(...))` call of
one stage-loop attempt (solver lines 654-668): a timeout, an exception, or
a structured answer. -/
inductive OracleOutcome where
  | timeout
  | failure (msg : String)
  | answered (finalAnswer reasoning : String)

/-- The submission response of one attempt as classified by solver lines
705-723: HTTP 200 with `correct == true` (carrying the optional next URL),
`correct == false` (carrying the optional reason), or anything else, which
the code turns into a raised exception. -/
inductive ServerReply where
  | correct (url : Option String)
  | incorrect (reason : Option String)
  | malformed (msg : String)

/-- Environment events of one attempt of the stage loop. -/
structure AttemptEvent where
  oracle : OracleOutcome
  server : ServerReply

/-- Effect of one attempt on the loop: break out with a next URL, finish the
whole chain, or append one feedback entry and continue. -/
inductive AttemptStep where
  | advance (url : String)
  | complete
  | feedback (entry : String)

/-- Processing of attempt `i` in the LLM orchestration loop (solver lines
621-733): the branch taken and, for the continue-branches, the exact
feedback string appended to `past_attempt_feedback`.  Note that the
`correct == false` branch records `llm_output.final_answer`, the raw
Oracle answer. -/
def attemptStep (i : Nat) (ev : AttemptEvent) : AttemptStep :=
  match ev.oracle with
  | .timeout =>
    .feedback ("Attempt " ++ toString (i + 1) ++ " timed out - be faster and more direct")
  | .failure msg =>
    .feedback ("Attempt " ++ toString (i + 1) ++ " failed due to internal error: " ++ msg)
  | .answered ans _ =>
    match ev.server with
    | .correct (some u) => .advance u
    | .correct none => .complete
    | .incorrect reason =>
      .feedback ("Attempt " ++ toString (i + 1) ++ " failed. Reason: "
        ++ reason.getD "No specific reason provided." ++ ". Submitted: " ++ ans)
    | .malformed msg =>
      .feedback ("Attempt " ++ toString (i + 1) ++ " failed due to internal error: " ++ msg)

/-- The value actually POSTed for an attempt (solver lines 671-685):
`format_answer_with_padding(llm_output.final_answer, raw_html)`. -/
def submittedValue (ev : AttemptEvent) (rawHtml : String) : Option String :=
  match ev.oracle with
  | .answered ans _ => some (format_answer_with_padding ans rawHtml)
  | _ => none

/-- The constant `MAX_ATTEMPTS = 3` (solver line 29). -/
def MAX_ATTEMPTS : Nat := 3

/-- Result of the attempt loop for one stage. -/
inductive StageResult where
  | advanced (url : String)
  | complete
  | exhausted
deriving DecidableEq

/-- The `for attempt in range(MAX_ATTEMPTS)` loop (solver line 621) from
attempt `i` with `fuel` iterations left, threading the feedback log.
Returns (Oracle invocations made, final feedback log, result); `exhausted`
is the `for`-`else` branch of line 734. -/
def attemptLoop (events : Nat → AttemptEvent) : Nat → Nat → List String → Nat × List String × StageResult
  | _, 0, fb => (0, fb, .exhausted)
  | i, fuel + 1, fb =>
    match attemptStep i (events i) with
    | .advance u => (1, fb, .advanced u)
    | .complete => (1, fb, .complete)
    | .feedback e =>
      let r := attemptLoop events (i + 1) fuel (fb ++ [e])
      (r.1 + 1, r.2.1, r.2.2)

/-- The full attempt loop of one stage. -/
def runStageAttempts (events : Nat → AttemptEvent) (fb : List String) : Nat × List String × StageResult :=
  attemptLoop events 0 MAX_ATTEMPTS fb

/-- Value of a decimal digit string, modelling `int(...)` on a `\d+` group. -/
def digitsToNat (ds : List Char) : Nat :=
  ds.foldl (fun a c => a * 10 + (c.toNat - '0'.toNat)) 0

/-- Single-position matcher for `stage(\d+)`: the literal `stage` followed
by a maximal nonempty digit run. -/
def matchStageAt (l : List Char) : Option (List Char × List Char) := do
  let r ← matchLit ['s', 't', 'a', 'g', 'e'] l
  let ds := r.takeWhile isDigitC
  if ds.isEmpty then none else some (ds, r.drop ds.length)

/-- Model of `re.search(r'stage(\d+)', url)` returning `int(group(1))` of
the leftmost match. -/
def searchStageNum : List Char → Option Nat
  | [] => none
  | c :: rest =>
    match matchStageAt (c :: rest) with
    | some (ds, _) => some (digitsToNat ds)
    | none => searchStageNum rest

/-- Model of `re.sub(r'stage\d+', repl, url)`: replace every
non-overlapping match. -/
def subStageAll (repl : List Char) : Nat → List Char → List Char
  | 0, l => l
  | _ + 1, [] => []
  | fuel + 1, c :: rest =>
    match matchStageAt (c :: rest) with
    | some (_, rem) => repl ++ subStageAll repl fuel rem
    | none => c :: subStageAll repl fuel rest

/-- The testing-only stage-skip heuristic run after attempt exhaustion
(solver lines 746-763): find `stage(\d+)` in the URL; stop the chain when
the number is at least 32, otherwise rewrite every `stage\d+` to the next
ordinal stage.  `none` means no skip happens (the chain halts). -/
def stageSkip (url : String) : Option String :=
  match searchStageNum url.toList with
  | none => none
  | some n =>
    if 32 ≤ n then none
    else some (List.asString
      (subStageAll ("stage" ++ toString (n + 1)).toList url.toList.length url.toList))

/-- Result of the deterministic fast-path submission
`try_deterministic_key_submission` as consumed at solver lines 601-609:
`False` (fall through to the LLM loop), a next URL, or `True` (final
stage solved). -/
inductive DetResult where
  | noAttempt
  | solvedNext (url : String)
  | solvedFinal

/-- Effect of one whole stage iteration on the session. -/
inductive StageOutcome where
  | nextUrl (url : String)
  | done
  | halt

/-- One iteration of the `while current_url:` stage loop (solver lines
402-779) for a stage at `url`, given the deterministic fast-path result and
the per-attempt events.  Returns the stage outcome, the feedback log, and
the number of Oracle invocations made during the stage. -/
def stageStep (url : String) (det : DetResult) (events : Nat → AttemptEvent)
    (fb : List String) : StageOutcome × List String × Nat :=
  match det with
  | .solvedNext u => (.nextUrl u, fb, 0)
  | .solvedFinal => (.done, fb, 0)
  | .noAttempt =>
    let r := runStageAttempts events fb
    match r.2.2 with
    | .advanced u => (.nextUrl u, r.2.1, r.1)
    | .complete => (.done, r.2.1, r.1)
    | .exhausted =>
      match stageSkip url with
      | some u2 => (.nextUrl u2, r.2.1, r.1)
      | none => (.halt, r.2.1, r.1)

/-- The spec's licensed ways for `currentURL` to move to `u`: a
`correct == true` submission response carrying `u` — either from the
deterministic fast path or from some attempt within the bound. -/
def SuccessAdvance (det : DetResult) (events : Nat → AttemptEvent) (u : String) : Prop :=
  det = .solvedNext u ∨
    ∃ k, k < MAX_ATTEMPTS ∧ (∃ a r, (events k).oracle = .answered a r) ∧
      (events k).server = .correct (some u)

/-- The inbound `POST /quiz-task` payload (models.QuizRequest). -/
structure QuizReq where
  email : String
  secret : String
  url : String

/-- The acceptance acknowledgement returned by `handle_quiz_request`
(main.py lines 107-110). -/
structure AckResponse where
  message : String
  url : String
deriving DecidableEq

/-- Model of `main.handle_quiz_request` (main.py lines 82-110).
`masterSecret` is `os.getenv("MASTER_QUIZ_SECRET")` (`none` when unset, in
which case every request is rejected, since a `str` never equals `None`).
`chainResult` stands for whatever the background chain would eventually
produce; the second component records the task handed to the executor
(`none` when no processing is started).  The HTTP 403 `HTTPException` is
the `Except.error` case. -/
def handle_quiz_request {α : Type} (masterSecret : Option String) (payload : QuizReq)
    (chainResult : α) : Except (Nat × String) AckResponse × Option α :=
  if some payload.secret ≠ masterSecret then
    (.error (403, "Forbidden: Invalid secret provided."), none)
  else
    (.ok ⟨"Quiz task accepted and processing in the background.", payload.url⟩, some chainResult)

/-! ## Lemmas about the padding normalizer -/

theorem zfill_length (w : Nat) (ds : List Char) : (zfill w ds).length = max w ds.length := by
  simp only [zfill, List.length_append, List.length_replicate]
  omega

theorem zfill_of_le {w : Nat} {ds : List Char} (h : w ≤ ds.length) : zfill w ds = ds := by
  simp [zfill, Nat.sub_eq_zero_of_le h]

theorem zfill_zfill (w : Nat) (ds : List Char) : zfill w (zfill w ds) = zfill w ds :=
  zfill_of_le (by rw [zfill_length]; omega)

theorem zfill_ne_nil {ds : List Char} (h : ds ≠ []) (w : Nat) : zfill w ds ≠ [] := by
  intro hc
  exact h (List.append_eq_nil.mp hc).2

theorem zfill_all_digit {ds : List Char} (h : ds.all isDigitC = true) (w : Nat) :
    (zfill w ds).all isDigitC = true := by
  rw [zfill, List.all_append]
  have h0 : (List.replicate (w - ds.length) '0').all isDigitC = true := by
    rw [List.all_eq_true]
    intro c hc
    rw [List.eq_of_mem_replicate hc]
    rfl
  rw [h0, h]
  rfl

theorem matchCore_sound {l pre num : List Char} (h : matchCore l = some (pre, num)) :
    l = pre ++ '-' :: num ∧ pre ≠ [] ∧ pre.all isUpperOrHyphen = true ∧
      num ≠ [] ∧ num.all isDigitC = true := by
  unfold matchCore at h
  split at h
  · exact absurd h (by simp)
  next hds =>
    split at h
    next preRev heq =>
      split at h
      · exact absurd h (by simp)
      next hpre =>
        split at h
        next hall =>
          rw [Option.some.injEq, Prod.mk.injEq] at h
          obtain ⟨h1, h2⟩ := h
          subst h1
          subst h2
          have hsplit : l.reverse.takeWhile isDigitC ++ l.reverse.dropWhile isDigitC
              = l.reverse := List.takeWhile_append_dropWhile isDigitC l.reverse
          rw [heq] at hsplit
          have hl : l = preRev.reverse ++ '-' :: (l.reverse.takeWhile isDigitC).reverse := by
            have := congrArg List.reverse hsplit
            simpa [List.reverse_append] using this.symm
          refine ⟨hl, by simpa using hpre, hall, by simpa using hds, ?_⟩
          rw [List.all_eq_true]
          intro c hc
          exact List.mem_takeWhile_imp (List.mem_reverse.mp hc)
        next => exact absurd h (by simp)
    next => exact absurd h (by simp)

theorem matchCore_complete {pre num : List Char}
    (hpre : pre ≠ []) (hpa : pre.all isUpperOrHyphen = true)
    (hnum : num ≠ []) (hna : num.all isDigitC = true) :
    matchCore (pre ++ '-' :: num) = some (pre, num) := by
  have hrev : (pre ++ '-' :: num).reverse = num.reverse ++ '-' :: pre.reverse := by
    simp [List.reverse_append]
  have hdig : ∀ a ∈ num.reverse, isDigitC a = true := by
    intro a ha
    exact List.all_eq_true.mp hna a (List.mem_reverse.mp ha)
  have hdash : isDigitC '-' = false := rfl
  have htake : (pre ++ '-' :: num).reverse.takeWhile isDigitC = num.reverse := by
    rw [hrev, List.takeWhile_append_of_pos hdig,
      List.takeWhile_cons_of_neg (by simp [hdash]), List.append_nil]
  have hdrop : (pre ++ '-' :: num).reverse.dropWhile isDigitC = '-' :: pre.reverse := by
    rw [hrev, List.dropWhile_append_of_pos hdig,
      List.dropWhile_cons_of_neg (by simp [hdash])]
  unfold matchCore
  rw [htake, hdrop]
  rw [if_neg (by simpa using hnum)]
  simp only [List.reverse_reverse]
  rw [if_neg (by simpa using hpre), if_pos hpa]

theorem matchPrefixNum_sound {l pre num : List Char}
    (h : matchPrefixNum l = some (pre, num)) :
    stripFinalNl l = pre ++ '-' :: num ∧ pre ≠ [] ∧ pre.all isUpperOrHyphen = true ∧
      num ≠ [] ∧ num.all isDigitC = true :=
  matchCore_sound h

theorem matchPrefixNum_complete {pre num : List Char}
    (hpre : pre ≠ []) (hpa : pre.all isUpperOrHyphen = true)
    (hnum : num ≠ []) (hna : num.all isDigitC = true) :
    matchPrefixNum (pre ++ '-' :: num) = some (pre, num) := by
  have hlast : ¬ (pre ++ '-' :: num).getLast? = some '\n' := by
    intro hc
    have hmem := List.mem_of_getLast?_eq_some hc
    rcases List.mem_append.mp hmem with hm | hm
    · have := List.all_eq_true.mp hpa _ hm
      exact absurd this (by decide)
    · rcases List.mem_cons.mp hm with hm | hm
      · exact absurd hm (by decide)
      · have := List.all_eq_true.mp hna _ hm
        exact absurd this (by decide)
  unfold matchPrefixNum stripFinalNl
  rw [if_neg hlast]
  exact matchCore_complete hpre hpa hnum hna

theorem regexShape_iff (s : String) :
    RegexShape s ↔ (matchPrefixNum s.toList).isSome = true := by
  constructor
  · rintro ⟨pre, num, hdec, hpre, hpa, hnum, hna⟩
    unfold matchPrefixNum
    rw [hdec, matchCore_complete hpre hpa hnum hna]
    rfl
  · intro h
    rcases ho : matchPrefixNum s.toList with _ | ⟨pre, num⟩
    · rw [ho] at h
      exact absurd h (by simp)
    · obtain ⟨hdec, hpre, hpa, hnum, hna⟩ := matchPrefixNum_sound ho
      exact ⟨pre, num, hdec, hpre, hpa, hnum, hna⟩

theorem firstAtLeast_le {n : Nat} {ps : List (List Char)} {p : List Char}
    (h : firstAtLeast n ps = some p) : n ≤ p.length := by
  induction ps with
  | nil => exact absurd h (by simp [firstAtLeast])
  | cons q qs ih =>
    rw [firstAtLeast] at h
    split at h
    next hq => exact Option.some.inj h ▸ hq
    next => exact ih h

theorem firstAtLeast_stable {n : Nat} {ps : List (List Char)} {p : List Char}
    (h : firstAtLeast n ps = some p) : firstAtLeast p.length ps = some p := by
  induction ps with
  | nil => exact absurd h (by simp [firstAtLeast])
  | cons q qs ih =>
    rw [firstAtLeast] at h
    rw [firstAtLeast]
    split at h
    next hq =>
      obtain rfl := Option.some.inj h
      rw [if_pos (Nat.le_refl _)]
    next hq =>
      have hlp := firstAtLeast_le h
      rw [if_neg (by omega)]
      exact ih h

theorem firstAtLeast_none_mono {n m : Nat} {ps : List (List Char)}
    (h : firstAtLeast n ps = none) (hnm : n ≤ m) : firstAtLeast m ps = none := by
  induction ps with
  | nil => rfl
  | cons q qs ih =>
    rw [firstAtLeast] at h
    rw [firstAtLeast]
    split at h
    next => exact absurd h (by simp)
    next hq =>
      rw [if_neg (by omega)]
      exact ih h

theorem formatCore_some {pre num page out : List Char}
    (hnum : num ≠ []) (hna : num.all isDigitC = true)
    (h : formatCore pre num page = some out) :
    ∃ num2, out = pre ++ '-' :: num2 ∧ num2 ≠ [] ∧ num2.all isDigitC = true ∧
      formatCore pre num2 page = some out := by
  unfold formatCore at h
  cases h1 : firstLeadingZero (findExamples pre page) with
  | some ex =>
    rw [h1] at h
    rw [Option.some.injEq] at h
    refine ⟨zfill ex.length num, h.symm, zfill_ne_nil hnum _, zfill_all_digit hna _, ?_⟩
    simp only [formatCore, h1, zfill_zfill, h]
  | none =>
    rw [h1] at h
    cases h2 : firstAtLeast num.length (findPlaceholders pre page) with
    | some p =>
      rw [h2] at h
      rw [Option.some.injEq] at h
      have hle := firstAtLeast_le h2
      have hlen : (zfill p.length num).length = p.length := by
        rw [zfill_length]; omega
      refine ⟨zfill p.length num, h.symm, zfill_ne_nil hnum _, zfill_all_digit hna _, ?_⟩
      simp only [formatCore, h1, hlen, firstAtLeast_stable h2, zfill_zfill, h]
    | none =>
      rw [h2] at h
      cases h3 : firstAtLeast num.length (findHints pre page) with
      | some hh =>
        rw [h3] at h
        rw [Option.some.injEq] at h
        have hle := firstAtLeast_le h3
        have hlen : (zfill hh.length num).length = hh.length := by
          rw [zfill_length]; omega
        refine ⟨zfill hh.length num, h.symm, zfill_ne_nil hnum _, zfill_all_digit hna _, ?_⟩
        simp only [formatCore, h1, hlen, firstAtLeast_none_mono h2 hle,
          firstAtLeast_stable h3, zfill_zfill, h]
      | none =>
        rw [h3] at h
        exact absurd h (by simp)

theorem formatAnswerL_idem (a page : List Char) :
    formatAnswerL (formatAnswerL a page) page = formatAnswerL a page := by
  cases hm : matchPrefixNum a with
  | none =>
    have hin : formatAnswerL a page = a := by simp [formatAnswerL, hm]
    rw [hin, hin]
  | some pn =>
    obtain ⟨pre, num⟩ := pn
    obtain ⟨hdec, hpre, hpa, hnum, hna⟩ := matchPrefixNum_sound hm
    cases hc : formatCore pre num page with
    | none =>
      have hin : formatAnswerL a page = a := by simp [formatAnswerL, hm, hc]
      rw [hin, hin]
    | some out =>
      have hin : formatAnswerL a page = out := by simp [formatAnswerL, hm, hc]
      obtain ⟨num2, hout, hn2, hd2, hc2⟩ := formatCore_some hnum hna hc
      have hm2 : matchPrefixNum out = some (pre, num2) := by
        rw [hout]
        exact matchPrefixNum_complete hpre hpa hn2 hd2
      rw [hin]
      simp [formatAnswerL, hm2, hc2]

/-! ## Claim theorems: padding normalizer -/

/-- Claim C4: digit-padding normalization is idempotent — for every answer
string `x` and every page content `p`,
`format_answer_with_padding(format_answer_with_padding(x, p), p)
  == format_answer_with_padding(x, p)`. -/
theorem c4_padding_idempotent (x p : String) :
    format_answer_with_padding (format_answer_with_padding x p) p
      = format_answer_with_padding x p := by
  unfold format_answer_with_padding
  have h : (List.asString (formatAnswerL x.toList p.toList)).toList
      = formatAnswerL x.toList p.toList := rfl
  rw [h, formatAnswerL_idem]

/-- Claim C7 counterexample: with the page showing the placeholder
`MATRIX-???` and the raw candidate `"94"`, `format_answer_with_padding`
returns `"94"` unchanged — not `"MATRIX-094"` as the claim states — because
a bare number does not match the `PREFIX-NUMBER` shape required at solver
lines 50-52, so the function returns it as-is without adding a prefix. -/
theorem c7_counterexample :
    format_answer_with_padding "94" "Examples: MATRIX-??? means 3 digits"
      ≠ "MATRIX-094" := by
  intro hc
  have h : format_answer_with_padding "94" "Examples: MATRIX-??? means 3 digits" = "94" := rfl
  rw [h] at hc
  exact absurd hc (by decide)

/-- Claim C7 (amended): the padding scenario holds for a raw candidate that
already has the `PREFIX-NUMBER` shape: `"MATRIX-94"` with a page showing
`MATRIX-???` normalizes to `"MATRIX-094"`, while a bare `"94"` is returned
unchanged. -/
theorem c7_amended :
    format_answer_with_padding "MATRIX-94" "Examples: MATRIX-??? means 3 digits"
        = "MATRIX-094" ∧
      format_answer_with_padding "94" "Examples: MATRIX-??? means 3 digits" = "94" :=
  ⟨rfl, rfl⟩

/-- Claim C10: an answer that does not match `^[A-Z-]+-\d+$` (for example a
bare number such as `"94"`, or lowercase `"matrix-94"`) is returned
unchanged by `format_answer_with_padding` for every page content: no prefix
is added and no zero-padding is applied. -/
theorem c10_nonmatching_unchanged (answer page : String) (h : ¬ RegexShape answer) :
    format_answer_with_padding answer page = answer := by
  cases hm : matchPrefixNum answer.toList with
  | some pn =>
    exact absurd ((regexShape_iff answer).mpr (by rw [hm]; rfl)) h
  | none =>
    have hm2 : matchPrefixNum answer.data = none := hm
    unfold format_answer_with_padding
    rw [show formatAnswerL answer.toList page.toList = answer.toList by
      simp only [formatAnswerL, String.toList, hm2]]
    rfl

/-- Witness for C10 at the lowercase answer `"matrix-94"`. -/
theorem c10_witness :
    ¬ RegexShape "matrix-94" ∧
      format_answer_with_padding "matrix-94" "Examples: MATRIX-??? means 3 digits"
        = "matrix-94" := by
  have hns : ¬ RegexShape "matrix-94" := by
    intro hs
    exact absurd ((regexShape_iff "matrix-94").mp hs) (by decide)
  exact ⟨hns, c10_nonmatching_unchanged "matrix-94" _ hns⟩

/-! ## Claim theorems: response sanitation -/

/-- Claim C5: the response sanitation applied to the Oracle's
`final_answer` is total — for every behaviour of `json.loads` (whose only
possible exception on a string input is `JSONDecodeError`, the class caught
by Strategy 1's `except`; Strategy 3's bare `except` catches everything)
and every input string, the cleanup returns a string and never propagates
an exception. -/
theorem c5_sanitation_total
    (loads : List Char → Except PyExc (List (List Char × List Char)))
    (hloads : ∀ s e, loads s = .error e → e = PyExc.jsonDecodeError)
    (ans : List Char) : (sanitizeAnswer loads ans).isOk = true := by
  simp only [sanitizeAnswer]
  by_cases hc : (pyStrip ans).head? = some '{' ∧ (pyStrip ans).getLast? = some '}'
  · rw [if_pos hc]
    cases hl : loads (pyStrip ans) with
    | error e =>
      have he := hloads _ _ hl
      subst he
      rfl
    | ok kvs =>
      dsimp only
      cases hk : firstKeyHit kvs keysStrategy1 with
      | some v => rfl
      | none => rfl
  · rw [if_neg hc]
    rfl

/-- Witness for C5: a loads oracle that always raises `JSONDecodeError` and
a double-quoted scalar input; the sanitizer strips the quotes and returns
the scalar. -/
theorem c5_witness :
    (sanitizeAnswer (fun _ => Except.error PyExc.jsonDecodeError)
        (quoteChar :: '4' :: '2' :: [quoteChar])).isOk = true ∧
      sanitizeAnswer (fun _ => Except.error PyExc.jsonDecodeError)
        (quoteChar :: '4' :: '2' :: [quoteChar]) = .ok ['4', '2'] :=
  ⟨c5_sanitation_total _ (fun _ _ h => (Except.error.inj h).symm) _, by rfl⟩

/-! ## Claim theorems: LLM retry loop -/

theorem retryFrom_spec (outcomes : Nat → LLMCallResult) :
    ∀ fuel attempt, attempt + fuel = maxRetries → 1 ≤ fuel →
      1 ≤ (retryFrom outcomes attempt fuel).1 ∧
      (retryFrom outcomes attempt fuel).1 ≤ fuel ∧
      (retryFrom outcomes attempt fuel).2.1
        = (retryDelays.drop attempt).take ((retryFrom outcomes attempt fuel).1 - 1) ∧
      (∀ k, k + 1 < (retryFrom outcomes attempt fuel).1 →
        outcomes (attempt + k) = .overloaded ∨ outcomes (attempt + k) = .otherErr) ∧
      (∀ k, k < (retryFrom outcomes attempt fuel).1 →
        outcomes (attempt + k) = .serverErr →
        (retryFrom outcomes attempt fuel).1 = k + 1 ∧
        (retryFrom outcomes attempt fuel).2.2 = .raised (attempt + k) .serverErr) := by
  intro fuel
  induction fuel with
  | zero => intro attempt h5 h1; omega
  | succ fuel ih =>
    intro attempt h5 _
    cases ho : outcomes attempt with
    | ok =>
      simp only [retryFrom, ho]
      refine ⟨Nat.le_refl 1, by omega, by simp, fun k hk => by omega, fun k hk hs => ?_⟩
      have hk0 : k = 0 := by omega
      subst hk0
      rw [Nat.add_zero, ho] at hs
      exact absurd hs (by decide)
    | overloaded =>
      by_cases hlt : attempt < maxRetries - 1
      · have hih := ih (attempt + 1) (by omega) (by simp only [maxRetries] at hlt h5; omega)
        obtain ⟨ih1, ih2, ih3, ih4, ih5⟩ := hih
        simp only [retryFrom, ho, if_pos hlt]
        refine ⟨by omega, by omega, ?_, ?_, ?_⟩
        · have hlen : attempt < retryDelays.length := by
            simp only [retryDelays, List.length_cons, List.length_nil]
            simp [maxRetries] at hlt
            omega
          rw [List.drop_eq_getElem_cons hlen]
          obtain ⟨m, hm⟩ : ∃ m, (retryFrom outcomes (attempt + 1) fuel).1 = m + 1 :=
            ⟨(retryFrom outcomes (attempt + 1) fuel).1 - 1, by omega⟩
          rw [Nat.add_sub_cancel, hm, List.take_succ_cons, List.getD_eq_getElem _ _ hlen]
          rw [hm] at ih3
          rw [ih3]
          simp
        · intro k hk
          cases k with
          | zero => exact Or.inl (by rw [Nat.add_zero, ho])
          | succ j =>
            have : attempt + (j + 1) = attempt + 1 + j := by omega
            rw [this]
            exact ih4 j (by omega)
        · intro k hk hs
          cases k with
          | zero =>
            rw [Nat.add_zero, ho] at hs
            exact absurd hs (by decide)
          | succ j =>
            have he : attempt + (j + 1) = attempt + 1 + j := by omega
            rw [he] at hs
            obtain ⟨e1, e2⟩ := ih5 j (by omega) hs
            exact ⟨by omega, by rw [he]; exact e2⟩
      · simp only [retryFrom, ho, if_neg hlt]
        refine ⟨Nat.le_refl 1, by omega, by simp, fun k hk => by omega, fun k hk hs => ?_⟩
        have hk0 : k = 0 := by omega
        subst hk0
        rw [Nat.add_zero, ho] at hs
        exact absurd hs (by decide)
    | serverErr =>
      simp only [retryFrom, ho]
      refine ⟨Nat.le_refl 1, by omega, by simp, fun k hk => by omega, fun k hk hs => ?_⟩
      have hk0 : k = 0 := by omega
      subst hk0
      exact ⟨rfl, by rw [Nat.add_zero]⟩
    | otherErr =>
      by_cases heq : attempt = maxRetries - 1
      · simp only [retryFrom, ho, if_pos heq]
        refine ⟨Nat.le_refl 1, by omega, by simp, fun k hk => by omega, fun k hk hs => ?_⟩
        have hk0 : k = 0 := by omega
        subst hk0
        rw [Nat.add_zero, ho] at hs
        exact absurd hs (by decide)
      · have hlt : attempt < maxRetries - 1 := by
          simp only [maxRetries] at heq h5 ⊢
          omega
        have hih := ih (attempt + 1) (by omega) (by simp only [maxRetries] at hlt h5; omega)
        obtain ⟨ih1, ih2, ih3, ih4, ih5⟩ := hih
        simp only [retryFrom, ho, if_neg heq]
        refine ⟨by omega, by omega, ?_, ?_, ?_⟩
        · have hlen : attempt < retryDelays.length := by
            simp only [retryDelays, List.length_cons, List.length_nil]
            simp [maxRetries] at hlt
            omega
          rw [List.drop_eq_getElem_cons hlen]
          obtain ⟨m, hm⟩ : ∃ m, (retryFrom outcomes (attempt + 1) fuel).1 = m + 1 :=
            ⟨(retryFrom outcomes (attempt + 1) fuel).1 - 1, by omega⟩
          rw [Nat.add_sub_cancel, hm, List.take_succ_cons, List.getD_eq_getElem _ _ hlen]
          rw [hm] at ih3
          rw [ih3]
          simp
        · intro k hk
          cases k with
          | zero => exact Or.inr (by rw [Nat.add_zero, ho])
          | succ j =>
            have : attempt + (j + 1) = attempt + 1 + j := by omega
            rw [this]
            exact ih4 j (by omega)
        · intro k hk hs
          cases k with
          | zero =>
            rw [Nat.add_zero, ho] at hs
            exact absurd hs (by decide)
          | succ j =>
            have he : attempt + (j + 1) = attempt + 1 + j := by omega
            rw [he] at hs
            obtain ⟨e1, e2⟩ := ih5 j (by omega) hs
            exact ⟨by omega, by rw [he]; exact e2⟩

/-- Claim C6 counterexample: an exception that is not a provider-overload
signal and not a `ServerError` at all — e.g. a provider 4xx `ClientError`,
which falls into the generic `except Exception` clause at llm_service lines
479-483 — IS retried: with such an error on the first call and success on
the second, the loop makes 2 invocations and returns the success instead of
surfacing the error immediately, contradicting the claim that only
overload signals are retried. -/
theorem c6_counterexample :
    (runRetryLoop (fun n => if n = 0 then LLMCallResult.otherErr else .ok)).1 = 2 ∧
      (runRetryLoop (fun n => if n = 0 then LLMCallResult.otherErr else .ok)).2.2
        = .success 1 :=
  ⟨rfl, rfl⟩

/-- Claim C6 (amended): a single Oracle call makes at most 5 provider
invocations; the delays slept between them are the successive entries of
the schedule `[2, 4, 8, 16, 30]` (at most the first four can ever be used);
an invocation is followed by another only when it raised an overload signal
or a non-`ServerError` exception (the generic `except Exception` path); and
a non-overload `ServerError` is never retried — it is surfaced immediately
at the attempt where it occurred. -/
theorem c6_retry_loop (outcomes : Nat → LLMCallResult) :
    1 ≤ (runRetryLoop outcomes).1 ∧
    (runRetryLoop outcomes).1 ≤ maxRetries ∧
    (runRetryLoop outcomes).2.1 = retryDelays.take ((runRetryLoop outcomes).1 - 1) ∧
    (∀ k, k + 1 < (runRetryLoop outcomes).1 →
      outcomes k = .overloaded ∨ outcomes k = .otherErr) ∧
    (∀ k, k < (runRetryLoop outcomes).1 → outcomes k = .serverErr →
      (runRetryLoop outcomes).1 = k + 1 ∧
      (runRetryLoop outcomes).2.2 = .raised k .serverErr) := by
  have h := retryFrom_spec outcomes maxRetries 0 (by rfl) (by decide)
  simpa [runRetryLoop] using h

/-- Witness for C6: a non-overload `ServerError` on the very first call is
surfaced immediately with exactly one invocation. -/
theorem c6_witness :
    (runRetryLoop (fun n => if n = 0 then LLMCallResult.serverErr else .ok)).1 = 0 + 1 ∧
      (runRetryLoop (fun n => if n = 0 then LLMCallResult.serverErr else .ok)).2.2
        = .raised 0 .serverErr :=
  (c6_retry_loop (fun n => if n = 0 then LLMCallResult.serverErr else .ok)).2.2.2.2
    0 (by decide) (by rfl)

/-! ## Claim theorems: rate limiter -/

theorem cleanMinute_eq_self {now : ℤ} {l : List (ℤ × ℤ)}
    (h : ∀ e ∈ l, now - e.1 ≤ 60) : cleanMinute now l = l := by
  cases l with
  | nil => rfl
  | cons e es =>
    apply List.dropWhile_cons_of_neg
    simp only [decide_eq_true_eq, not_lt]
    exact h e (List.mem_cons_self e es)

/-- Claim C2 counterexample: with the minute window holding exactly
`RPM - 1 = 9` in-window requests (limits `RPM = 10`, `TPM = 1 000 000`,
`RPD = 1500`) and an arriving call whose 5000-token estimate fits the
remaining TPM budget, `wait_if_needed` does NOT admit the call with zero
wait: the source's `rpm_current >= self.rpm_limit - 1` buffer check already
fires at `RPM - 1`, so the computed wait is the 10 seconds until the oldest
entry leaves the window. -/
theorem c2_counterexample :
    wait_if_needed
        ⟨[(50, 100), (51, 100), (52, 100), (53, 100), (54, 100), (55, 100), (56, 100),
          (57, 100), (58, 100)],
         [(50, 100), (51, 100), (52, 100), (53, 100), (54, 100), (55, 100), (56, 100),
          (57, 100), (58, 100)], 10, 1000000, 1500⟩ 100 5000 ≠ some 0 ∧
      wait_if_needed
        ⟨[(50, 100), (51, 100), (52, 100), (53, 100), (54, 100), (55, 100), (56, 100),
          (57, 100), (58, 100)],
         [(50, 100), (51, 100), (52, 100), (53, 100), (54, 100), (55, 100), (56, 100),
          (57, 100), (58, 100)], 10, 1000000, 1500⟩ 100 5000 = some 10 := by
  constructor
  · intro hc
    exact absurd (hc.symm.trans (by rfl)) (by decide)
  · rfl

/-- Claim C2 (amended): with every minute-window entry in-window, the day
quota below its limit and the token estimate within the TPM budget,
`wait_if_needed` admits the call with zero wait only while the window holds
at most `RPM - 2` requests (the code keeps a one-request buffer); as soon
as it holds `RPM - 1` or more — in particular at exactly `RPM` — the
computed wait equals the time until the oldest in-window entry expires,
which is nonzero whenever that entry is strictly younger than 60 seconds. -/
theorem c2_rate_limiter_wait (st : RLState) (now : ℤ) (est : ℤ)
    (hwin : ∀ e ∈ st.requestsMinute, now - e.1 ≤ 60)
    (hrpd : ((cleanDay now st.requestsDay).length : ℤ) < st.rpdLimit)
    (htpm : (st.requestsMinute.map (fun e => e.2)).sum + est < st.tpmLimit - 50000) :
    ((st.requestsMinute.length : ℤ) ≤ st.rpmLimit - 2 →
      wait_if_needed st now est = some 0) ∧
    (∀ t0 k0 rest, st.requestsMinute = (t0, k0) :: rest →
      st.rpmLimit - 1 ≤ (st.requestsMinute.length : ℤ) → now - t0 < 60 →
      wait_if_needed st now est = some (60 - (now - t0)) ∧ (0:ℤ) < 60 - (now - t0)) := by
  have hclean : cleanMinute now st.requestsMinute = st.requestsMinute :=
    cleanMinute_eq_self hwin
  constructor
  · intro hle
    have hc2 : ¬ (st.rpmLimit - 1 ≤ (st.requestsMinute.length : ℤ)) := by omega
    have hc3 : ¬ (st.tpmLimit - 50000 ≤ (st.requestsMinute.map (fun e => e.2)).sum + est) := by
      omega
    have hc4 : ¬ (st.rpdLimit ≤ ((cleanDay now st.requestsDay).length : ℤ)) := by omega
    simp only [wait_if_needed, calcWaitTime, hclean, if_neg hc2, if_neg hc3, if_neg hc4]
    rfl
  · intro t0 k0 rest hmin hge hage
    have hpos : (0:ℤ) < 60 - (now - t0) := by omega
    have hh : st.requestsMinute.head? = some (t0, k0) := by rw [hmin]; rfl
    have hc3 : ¬ (st.tpmLimit - 50000 ≤ (st.requestsMinute.map (fun e => e.2)).sum + est) := by
      omega
    have hc4 : ¬ (st.rpdLimit ≤ ((cleanDay now st.requestsDay).length : ℤ)) := by omega
    refine ⟨?_, hpos⟩
    simp only [wait_if_needed, calcWaitTime, hclean, hh, if_pos hge, if_neg hc3, if_neg hc4]
    rw [show max 0 (60 - (now - t0)) = 60 - (now - t0) from max_eq_right (le_of_lt hpos)]
    simp only [pyMax, List.foldl_nil, Option.map_some', if_pos hpos]

/-- Witness for C2 (amended): the nine-entry window of the counterexample
state satisfies every hypothesis, and the wait is the 10 seconds until the
oldest entry (timestamp 50) leaves the window at instant 110. -/
theorem c2_witness :
    wait_if_needed
        ⟨[(50, 100), (51, 100), (52, 100), (53, 100), (54, 100), (55, 100), (56, 100),
          (57, 100), (58, 100)],
         [(50, 100), (51, 100), (52, 100), (53, 100), (54, 100), (55, 100), (56, 100),
          (57, 100), (58, 100)], 10, 1000000, 1500⟩ 100 5000
      = some (60 - (100 - 50)) ∧ (0:ℤ) < 60 - (100 - 50) :=
  (c2_rate_limiter_wait
      ⟨[(50, 100), (51, 100), (52, 100), (53, 100), (54, 100), (55, 100), (56, 100),
        (57, 100), (58, 100)],
       [(50, 100), (51, 100), (52, 100), (53, 100), (54, 100), (55, 100), (56, 100),
        (57, 100), (58, 100)], 10, 1000000, 1500⟩ 100 5000
      (by decide) (by decide) (by decide)).2 50 100
    [(51, 100), (52, 100), (53, 100), (54, 100), (55, 100), (56, 100), (57, 100), (58, 100)]
    rfl (by decide) (by decide)

/-! ## Claim theorems: stage loop -/

theorem attemptLoop_spec (events : Nat → AttemptEvent) :
    ∀ fuel i fb,
      (attemptLoop events i fuel fb).1 ≤ fuel ∧
      ((attemptLoop events i fuel fb).2.2 = .exhausted →
        (attemptLoop events i fuel fb).1 = fuel) := by
  intro fuel
  induction fuel with
  | zero => intro i fb; exact ⟨Nat.le_refl 0, fun _ => rfl⟩
  | succ fuel ih =>
    intro i fb
    cases hs : attemptStep i (events i) with
    | advance u =>
      have he : attemptLoop events i (fuel + 1) fb = (1, fb, .advanced u) := by
        simp only [attemptLoop, hs]
      rw [he]
      exact ⟨by omega, fun hc => StageResult.noConfusion hc⟩
    | complete =>
      have he : attemptLoop events i (fuel + 1) fb = (1, fb, .complete) := by
        simp only [attemptLoop, hs]
      rw [he]
      exact ⟨by omega, fun hc => StageResult.noConfusion hc⟩
    | feedback e =>
      have he : attemptLoop events i (fuel + 1) fb
          = ((attemptLoop events (i + 1) fuel (fb ++ [e])).1 + 1,
             (attemptLoop events (i + 1) fuel (fb ++ [e])).2.1,
             (attemptLoop events (i + 1) fuel (fb ++ [e])).2.2) := by
        simp only [attemptLoop, hs]
      obtain ⟨a1, a2⟩ := ih (i + 1) (fb ++ [e])
      rw [he]
      exact ⟨by omega, fun hc => by rw [a2 hc]⟩

/-- Claim C1: during any single stage, the number of Oracle invocations is
at most `MAX_ATTEMPTS = 3`, whatever the attempts' outcomes (timeouts and
failures included, since each loop iteration starts exactly one
invocation); when the attempt loop runs to exhaustion it has made exactly
`MAX_ATTEMPTS` invocations and the stage is abandoned per the failure
policy — the skip-or-halt branch, with no further Oracle call. -/
theorem c1_oracle_bound (url : String) (det : DetResult) (events : Nat → AttemptEvent)
    (fb : List String) :
    (stageStep url det events fb).2.2 ≤ MAX_ATTEMPTS ∧
    ((runStageAttempts events fb).2.2 = .exhausted →
      (runStageAttempts events fb).1 = MAX_ATTEMPTS) ∧
    (det = DetResult.noAttempt → (runStageAttempts events fb).2.2 = .exhausted →
      (stageStep url det events fb).1
        = (match stageSkip url with
           | some u2 => StageOutcome.nextUrl u2
           | none => StageOutcome.halt)) := by
  obtain ⟨b1, b2⟩ := attemptLoop_spec events MAX_ATTEMPTS 0 fb
  refine ⟨?_, b2, ?_⟩
  · cases det with
    | solvedNext u => exact Nat.zero_le _
    | solvedFinal => exact Nat.zero_le _
    | noAttempt =>
      cases hr : (runStageAttempts events fb).2.2 with
      | advanced u =>
        have he : stageStep url .noAttempt events fb
            = (.nextUrl u, (runStageAttempts events fb).2.1, (runStageAttempts events fb).1) := by
          simp only [stageStep, hr]
        rw [he]
        exact b1
      | complete =>
        have he : stageStep url .noAttempt events fb
            = (.done, (runStageAttempts events fb).2.1, (runStageAttempts events fb).1) := by
          simp only [stageStep, hr]
        rw [he]
        exact b1
      | exhausted =>
        cases hsk : stageSkip url with
        | some u2 =>
          have he : stageStep url .noAttempt events fb
              = (.nextUrl u2, (runStageAttempts events fb).2.1,
                 (runStageAttempts events fb).1) := by
            simp only [stageStep, hr, hsk]
          rw [he]
          exact b1
        | none =>
          have he : stageStep url .noAttempt events fb
              = (.halt, (runStageAttempts events fb).2.1, (runStageAttempts events fb).1) := by
            simp only [stageStep, hr, hsk]
          rw [he]
          exact b1
  · intro hdet hexh
    subst hdet
    cases hsk : stageSkip url with
    | some u2 =>
      have he : stageStep url .noAttempt events fb
          = (.nextUrl u2, (runStageAttempts events fb).2.1, (runStageAttempts events fb).1) := by
        simp only [stageStep, hexh, hsk]
      rw [he]
    | none =>
      have he : stageStep url .noAttempt events fb
          = (.halt, (runStageAttempts events fb).2.1, (runStageAttempts events fb).1) := by
        simp only [stageStep, hexh, hsk]
      rw [he]

/-- Witness for C1: three wrong submissions in a row exhaust the stage at
exactly `MAX_ATTEMPTS = 3` Oracle invocations. -/
theorem c1_witness :
    (runStageAttempts (fun _ => ⟨.answered "x" "r", .incorrect (some "w")⟩) []).1
      = MAX_ATTEMPTS :=
  (c1_oracle_bound "http://h/q" DetResult.noAttempt
      (fun _ => ⟨.answered "x" "r", .incorrect (some "w")⟩) []).2.1 (by rfl)

theorem attemptStep_advance {i : Nat} {ev : AttemptEvent} {u : String}
    (h : attemptStep i ev = .advance u) :
    (∃ a r, ev.oracle = .answered a r) ∧ ev.server = .correct (some u) := by
  obtain ⟨o, s⟩ := ev
  cases o with
  | timeout => exact absurd h (by simp [attemptStep])
  | failure m => exact absurd h (by simp [attemptStep])
  | answered a r =>
    cases s with
    | correct ou =>
      cases ou with
      | some v =>
        simp only [attemptStep] at h
        cases h
        exact ⟨⟨a, r, rfl⟩, rfl⟩
      | none => exact absurd h (by simp [attemptStep])
    | incorrect reason => exact absurd h (by simp [attemptStep])
    | malformed m => exact absurd h (by simp [attemptStep])

theorem attemptLoop_advanced (events : Nat → AttemptEvent) :
    ∀ fuel i fb u, (attemptLoop events i fuel fb).2.2 = .advanced u →
      ∃ k, i ≤ k ∧ k < i + fuel ∧ attemptStep k (events k) = .advance u := by
  intro fuel
  induction fuel with
  | zero =>
    intro i fb u h
    exact absurd h (fun hc => StageResult.noConfusion hc)
  | succ fuel ih =>
    intro i fb u h
    cases hs : attemptStep i (events i) with
    | advance v =>
      have he : (attemptLoop events i (fuel + 1) fb).2.2 = .advanced v := by
        simp only [attemptLoop, hs]
      rw [he] at h
      cases h
      exact ⟨i, Nat.le_refl i, by omega, hs⟩
    | complete =>
      have he : (attemptLoop events i (fuel + 1) fb).2.2 = .complete := by
        simp only [attemptLoop, hs]
      rw [he] at h
      exact absurd h (fun hc => StageResult.noConfusion hc)
    | feedback e =>
      have he : (attemptLoop events i (fuel + 1) fb).2.2
          = (attemptLoop events (i + 1) fuel (fb ++ [e])).2.2 := by
        simp only [attemptLoop, hs]
      rw [he] at h
      obtain ⟨k, hk1, hk2, hk3⟩ := ih (i + 1) (fb ++ [e]) u h
      exact ⟨k, by omega, by omega, hk3⟩

/-- Claim C3 counterexample: a reachable stage execution in which
`currentURL` changes with NO `correct == true` submission at all — the
deterministic path declines, all three attempts come back
`correct == false`, and the testing-only skip of solver lines 746-763
rewrites `stage5` to `stage6` — contradicting the claimed invariant that
the URL changes only via a correct submission. -/
theorem c3_counterexample :
    (stageStep "http://host/stage5" .noAttempt
        (fun _ => ⟨.answered "x" "r", .incorrect (some "wrong")⟩) []).1
      = .nextUrl "http://host/stage6" ∧
    "http://host/stage6" ≠ "http://host/stage5" ∧
    ¬ SuccessAdvance .noAttempt (fun _ => ⟨.answered "x" "r", .incorrect (some "wrong")⟩)
        "http://host/stage6" := by
  refine ⟨rfl, by decide, ?_⟩
  rintro (hdet | ⟨k, hk, ⟨a, r, ho⟩, hs⟩)
  · exact DetResult.noConfusion hdet
  · exact ServerReply.noConfusion hs

/-- Claim C3 (amended): in every stage iteration, `currentURL` moves to `u`
only through a `correct == true` submission response carrying `u` (from the
deterministic fast path or one of the bounded attempts), or — after the
attempt budget is exhausted — through the testing-only stage-skip heuristic
that rewrites a `stage<n>` URL (`n < 32`) to the next ordinal stage. -/
theorem c3_url_advance (url : String) (det : DetResult) (events : Nat → AttemptEvent)
    (fb fb2 : List String) (u : String) (n : Nat)
    (h : stageStep url det events fb = (.nextUrl u, fb2, n)) :
    SuccessAdvance det events u ∨
      ((runStageAttempts events fb).2.2 = .exhausted ∧ stageSkip url = some u) := by
  cases det with
  | solvedNext v =>
    simp only [stageStep, Prod.mk.injEq, StageOutcome.nextUrl.injEq] at h
    obtain ⟨rfl, -, -⟩ := h
    exact Or.inl (Or.inl rfl)
  | solvedFinal =>
    simp only [stageStep, Prod.mk.injEq] at h
    exact absurd h.1 (fun hc => StageOutcome.noConfusion hc)
  | noAttempt =>
    cases hr : (runStageAttempts events fb).2.2 with
    | advanced v =>
      have he : stageStep url .noAttempt events fb
          = (.nextUrl v, (runStageAttempts events fb).2.1, (runStageAttempts events fb).1) := by
        simp only [stageStep, hr]
      rw [he] at h
      simp only [Prod.mk.injEq, StageOutcome.nextUrl.injEq] at h
      obtain ⟨rfl, -, -⟩ := h
      obtain ⟨k, hk1, hk2, hk3⟩ := attemptLoop_advanced events MAX_ATTEMPTS 0 fb v hr
      obtain ⟨ha, hserv⟩ := attemptStep_advance hk3
      exact Or.inl (Or.inr ⟨k, by omega, ha, hserv⟩)
    | complete =>
      have he : stageStep url .noAttempt events fb
          = (.done, (runStageAttempts events fb).2.1, (runStageAttempts events fb).1) := by
        simp only [stageStep, hr]
      rw [he] at h
      simp only [Prod.mk.injEq] at h
      exact absurd h.1 (fun hc => StageOutcome.noConfusion hc)
    | exhausted =>
      cases hsk : stageSkip url with
      | some u2 =>
        have he : stageStep url .noAttempt events fb
            = (.nextUrl u2, (runStageAttempts events fb).2.1,
               (runStageAttempts events fb).1) := by
          simp only [stageStep, hr, hsk]
        rw [he] at h
        simp only [Prod.mk.injEq, StageOutcome.nextUrl.injEq] at h
        obtain ⟨rfl, -, -⟩ := h
        exact Or.inr ⟨rfl, rfl⟩
      | none =>
        have he : stageStep url .noAttempt events fb
            = (.halt, (runStageAttempts events fb).2.1, (runStageAttempts events fb).1) := by
          simp only [stageStep, hr, hsk]
        rw [he] at h
        simp only [Prod.mk.injEq] at h
        exact absurd h.1 (fun hc => StageOutcome.noConfusion hc)

/-- Witness for C3 (amended): the stage-skip scenario lands in the
right-hand disjunct. -/
theorem c3_witness :
    SuccessAdvance .noAttempt (fun _ => ⟨.answered "x" "r", .incorrect (some "wrong")⟩)
        "http://host/stage6" ∨
      ((runStageAttempts (fun _ => ⟨.answered "x" "r", .incorrect (some "wrong")⟩) []).2.2
          = .exhausted ∧
        stageSkip "http://host/stage5" = some "http://host/stage6") :=
  c3_url_advance "http://host/stage5" .noAttempt
    (fun _ => ⟨.answered "x" "r", .incorrect (some "wrong")⟩) [] _ "http://host/stage6" _
    (by rfl)

/-- Claim C8 counterexample: the `correct == false` branch records
`llm_output.final_answer` — the raw Oracle answer — in the feedback entry,
not the value that was POSTed.  Here padding normalization turns the raw
answer `MATRIX-94` into the submitted `MATRIX-094` (the page shows the
example `MATRIX-094`), yet the appended entry contains only `MATRIX-94`:
the submitted value is not contained in the entry. -/
theorem c8_counterexample :
    submittedValue ⟨.answered "MATRIX-94" "r", .incorrect (some "bad")⟩ "see MATRIX-094 here"
        = some "MATRIX-094" ∧
      attemptStep 0 ⟨.answered "MATRIX-94" "r", .incorrect (some "bad")⟩
        = .feedback "Attempt 1 failed. Reason: bad. Submitted: MATRIX-94" ∧
      ¬ ("MATRIX-094".toList
          <:+: "Attempt 1 failed. Reason: bad. Submitted: MATRIX-94".toList) := by
  refine ⟨rfl, rfl, ?_⟩
  decide

/-- Claim C8 (amended): whenever a submission response has
`correct == false`, exactly one `AttemptFeedback` entry is appended for
that attempt — it contains the server's stated reason and the RAW Oracle
answer (which coincides with the submitted value only when padding
normalization left the answer unchanged) — and the loop then proceeds to
the next attempt. -/
theorem c8_feedback_entry (events : Nat → AttemptEvent) (i fuel : Nat) (fb : List String)
    (ans reasoning reason : String)
    (h : events i = ⟨.answered ans reasoning, .incorrect (some reason)⟩) :
    ∃ entry,
      attemptStep i (events i) = .feedback entry ∧
      entry = "Attempt " ++ toString (i + 1) ++ " failed. Reason: " ++ reason
        ++ ". Submitted: " ++ ans ∧
      reason.toList <:+: entry.toList ∧
      ans.toList <:+: entry.toList ∧
      attemptLoop events i (fuel + 1) fb
        = ((attemptLoop events (i + 1) fuel (fb ++ [entry])).1 + 1,
           (attemptLoop events (i + 1) fuel (fb ++ [entry])).2.1,
           (attemptLoop events (i + 1) fuel (fb ++ [entry])).2.2) := by
  have hstep : attemptStep i (events i)
      = .feedback ("Attempt " ++ toString (i + 1) ++ " failed. Reason: " ++ reason
        ++ ". Submitted: " ++ ans) := by
    rw [h]
    rfl
  refine ⟨_, hstep, rfl, ?_, ?_, ?_⟩
  · exact ⟨("Attempt " ++ toString (i + 1) ++ " failed. Reason: ").toList,
      (". Submitted: " ++ ans).toList, by simp [List.append_assoc]⟩
  · exact ⟨("Attempt " ++ toString (i + 1) ++ " failed. Reason: " ++ reason
      ++ ". Submitted: ").toList, [], by simp [List.append_assoc]⟩
  · simp only [attemptLoop, hstep]

/-- Witness for C8 (amended): a concrete wrong attempt with reason `no` and
raw answer `A-1`. -/
theorem c8_witness :
    ∃ entry,
      attemptStep 0 ((fun _ : Nat =>
          (⟨.answered "A-1" "r", .incorrect (some "no")⟩ : AttemptEvent)) 0)
        = .feedback entry ∧
      entry = "Attempt " ++ toString (0 + 1) ++ " failed. Reason: " ++ "no"
        ++ ". Submitted: " ++ "A-1" ∧
      "no".toList <:+: entry.toList ∧
      "A-1".toList <:+: entry.toList ∧
      attemptLoop (fun _ => ⟨.answered "A-1" "r", .incorrect (some "no")⟩) 0 (1 + 1) []
        = ((attemptLoop (fun _ => ⟨.answered "A-1" "r", .incorrect (some "no")⟩)
              (0 + 1) 1 ([] ++ [entry])).1 + 1,
           (attemptLoop (fun _ => ⟨.answered "A-1" "r", .incorrect (some "no")⟩)
              (0 + 1) 1 ([] ++ [entry])).2.1,
           (attemptLoop (fun _ => ⟨.answered "A-1" "r", .incorrect (some "no")⟩)
              (0 + 1) 1 ([] ++ [entry])).2.2) :=
  c8_feedback_entry (fun _ => ⟨.answered "A-1" "r", .incorrect (some "no")⟩) 0 1 []
    "A-1" "r" "no" rfl

/-! ## Claim theorems: inbound endpoint -/

/-- Claim C9: for every `POST /quiz-task` request, a secret that does not
equal the configured master secret is rejected with HTTP 403 and no chain
processing is started; a matching secret is answered immediately with the
fixed acceptance acknowledgement and the chain is handed to the background
executor; and the acknowledgement is identical whatever the chain would
later produce — it never reflects downstream success or failure. -/
theorem c9_quiz_task_endpoint (α : Type) (ms : Option String) (p : QuizReq) (c : α) :
    (some p.secret ≠ ms →
      handle_quiz_request ms p c
        = (.error (403, "Forbidden: Invalid secret provided."), none)) ∧
    (some p.secret = ms →
      handle_quiz_request ms p c
        = (.ok ⟨"Quiz task accepted and processing in the background.", p.url⟩, some c)) ∧
    (∀ (β : Type) (c1 c2 : β),
      (handle_quiz_request ms p c1).1 = (handle_quiz_request ms p c2).1) := by
  refine ⟨?_, ?_, ?_⟩
  · intro hne
    simp only [handle_quiz_request, if_pos hne]
  · intro heq
    have hne : ¬ (some p.secret ≠ ms) := fun hc => hc heq
    simp only [handle_quiz_request, if_neg hne]
  · intro β c1 c2
    by_cases hne : some p.secret ≠ ms
    · simp only [handle_quiz_request, if_pos hne]
    · simp only [handle_quiz_request, if_neg hne]

/-- Witness for C9: a mismatching secret is rejected without processing,
and a matching secret is accepted with the fixed acknowledgement. -/
theorem c9_witness :
    handle_quiz_request (some "s3cr3t") ⟨"a@b.c", "wrong", "http://x"⟩ ()
        = (.error (403, "Forbidden: Invalid secret provided."), none) ∧
      handle_quiz_request (some "s3cr3t") ⟨"a@b.c", "s3cr3t", "http://x"⟩ ()
        = (.ok ⟨"Quiz task accepted and processing in the background.", "http://x"⟩, some ()) :=
  ⟨(c9_quiz_task_endpoint Unit (some "s3cr3t") ⟨"a@b.c", "wrong", "http://x"⟩ ()).1
      (by decide),
    (c9_quiz_task_endpoint Unit (some "s3cr3t") ⟨"a@b.c", "s3cr3t", "http://x"⟩ ()).2.1
      (by decide)⟩
